import Mathlib

/-!
Verification development for the CTVM repository (TVAL3 total-variation
tomographic reconstruction, C++ with boost::ublas).

The definitions below are a shallow embedding of `src/ctvm.cpp` and the parts
of `src/ctvm_util.cpp` it uses.  `double` is modelled as `ℝ`;
`BoostDoubleVector` as `List ℝ`; `BoostDoubleMatrix` as `List (List ℝ)`
(row-major list of rows, matching ublas's logical `(i,j)` indexing).
Element accesses that are always in bounds in the modelled code paths use the
total accessors `getD`/`mread`; element accesses that the source can perform
out of bounds (the `U_Subfunction` copy loop and the `W(j,i)` writes of the
alternating minimiser's w-pass) use checked accessors returning `Except`,
so that an out-of-bounds access is an observable error of the model.
Division in `ℝ` is total with `x / 0 = 0`; where the C++ divides by zero
(IEEE NaN) this is noted at the definition.
-/

namespace Ctvm

noncomputable section

abbrev Vec := List ℝ
abbrev Mat := List (List ℝ)

/-- Sum of squares of the entries of a vector. -/
def sumSq (v : Vec) : ℝ := v.foldr (fun x s => x * x + s) 0

/-- ublas `norm_2`: Euclidean norm, the square root of the sum of squares. -/
def norm_2 (v : Vec) : ℝ := Real.sqrt (sumSq v)

/-- ublas `inner_prod` of two (equal-length) vectors. -/
def inner_prod (v w : Vec) : ℝ := (List.zipWith (· * ·) v w).foldr (· + ·) 0

/-- Elementwise vector addition. -/
def vadd (v w : Vec) : Vec := List.zipWith (· + ·) v w

/-- Elementwise vector subtraction. -/
def vsub (v w : Vec) : Vec := List.zipWith (· - ·) v w

/-- Scalar times vector. -/
def smul (c : ℝ) (v : Vec) : Vec := v.map (fun x => c * x)

/-- Vector divided by a scalar (ublas `v / c`). -/
def vdivs (v : Vec) (c : ℝ) : Vec := v.map (fun x => x / c)

/-- Elementwise negation (ublas unary minus). -/
def vneg (v : Vec) : Vec := v.map (fun x => -x)

/-- Total read of matrix entry `(i, j)`; all uses are in bounds. -/
def mread (M : Mat) (i j : ℕ) : ℝ := (M.getD i []).getD j 0

/-- Total write of matrix entry `(i, j)` (out-of-range writes are no-ops;
all uses are in bounds). -/
def msetT (M : Mat) (i j : ℕ) (x : ℝ) : Mat := M.set i ((M.getD i []).set j x)

/-- Checked read of matrix entry `(i, j)`: models a bounds-checked ublas
element access, erroring when the index is outside the allocated shape. -/
def mget (M : Mat) (i j : ℕ) : Except String ℝ :=
  match M.get? i with
  | none => .error "index out of bounds"
  | some row =>
    match row.get? j with
    | none => .error "index out of bounds"
    | some x => .ok x

/-- Checked write of matrix entry `(i, j)`. -/
def mset (M : Mat) (i j : ℕ) (x : ℝ) : Except String Mat :=
  match M.get? i with
  | none => .error "index out of bounds"
  | some row =>
    if j < row.length then .ok (M.set i (row.set j x)) else .error "index out of bounds"

/-- Checked write into a vector. -/
def vset (v : Vec) (i : ℕ) (x : ℝ) : Except String Vec :=
  if i < v.length then .ok (v.set i x) else .error "index out of bounds"

/-- Matrix–vector product (ublas `prod(M, v)`). -/
def matvec (M : Mat) (v : Vec) : Vec := M.map (fun row => inner_prod row v)

/-- Matrix transpose (ublas `trans`). -/
def transpose (M : Mat) : Mat :=
  (List.range ((M.getD 0 []).length)).map (fun j => M.map (fun row => row.getD j 0))

/-- Elementwise matrix subtraction. -/
def matSub (M N : Mat) : Mat := List.zipWith vsub M N

/-- Frobenius inner product of two matrices of equal shape: the sum of the
row-wise inner products. -/
def frobInner (M N : Mat) : ℝ := (List.zipWith inner_prod M N).foldr (· + ·) 0

/-- Frobenius norm of a matrix. -/
def frobNorm (M : Mat) : ℝ := Real.sqrt ((M.map sumSq).foldr (· + ·) 0)

/-- Scalar times matrix. -/
def matScale (c : ℝ) (M : Mat) : Mat := M.map (smul c)

/-- Model of `ctvm_util.cpp` `MatrixToVector`: column-by-column rasterisation. -/
def MatrixToVector (M : Mat) : Vec :=
  (List.range ((M.getD 0 []).length)).flatMap
    (fun j => (List.range M.length).map (fun i => mread M i j))

/-- Model of `ctvm_util.cpp` `VectorToMatrix`: fills an `rows × cols` matrix
column-by-column, so entry `(i, j)` is `v[j * rows + i]`. -/
def VectorToMatrix (v : Vec) (rows cols : ℕ) : Mat :=
  (List.range rows).map (fun i => (List.range cols).map (fun j => v.getD (j * rows + i) 0))

/-- Zero vector `BoostZeroVector n`. -/
def BoostZeroVector (n : ℕ) : Vec := List.replicate n 0

/-- Zero matrix `BoostZeroMatrix n m`. -/
def BoostZeroMatrix (n m : ℕ) : Mat := List.replicate n (List.replicate m 0)

end

/-! ## The pixel-position search loop of `Gradient2D`

`Gradient2D` locates a pixel inside the `l × l` image with a nested search
loop over `unsigned long`s (ctvm.cpp lines 31-52).  The loop is modelled
literally below, with the C++ unsigned wrap-around `pixel - l` rendered as
`(pixel + (2^64 - l)) % 2^64`.  `findPos_eq` then proves that, for every
in-range pixel of a reasonably sized image, the loop computes the row-major
position `(pixel / l, pixel % l)`. -/

/-- The constant `2 ^ 64`, the modulus of C++ `unsigned long` arithmetic. -/
def u64 : ℕ := 18446744073709551616

/-- The inner loop of the pixel search: starting from column candidate `j`,
with `fuel` candidates left, return the first `j` with `j / pixel ≥ 1`
(integer division), mirroring `q = j / pixel; if (q) { ... break; }`. -/
def gradInnerGo (pixel : ℕ) : ℕ → ℕ → Option ℕ
  | _, 0 => none
  | j, fuel + 1 => if 1 ≤ j / pixel then some j else gradInnerGo pixel (j + 1) fuel

/-- The inner loop of the pixel search over `j = 0, …, l-1`. -/
def gradInner (l pixel : ℕ) : Option ℕ := gradInnerGo pixel 0 l

/-- The outer pixel-search loop: `i` is the current row candidate, `fuel`
the remaining iterations, `pixel` the mutated copy of the pixel index, and
`rc` the current `(rows, cols)` state.  A zero `pixel` breaks with
`(i, 0)`; otherwise an inner-loop hit overwrites `rc` and the loop
continues with `pixel - l` in unsigned arithmetic. -/
def gradLoop (l : ℕ) : ℕ → ℕ → ℕ → ℕ × ℕ → ℕ × ℕ
  | 0, _, _, rc => rc
  | fuel + 1, i, pixel, rc =>
    if pixel = 0 then (i, 0)
    else
      gradLoop l fuel (i + 1) ((pixel + (u64 - l)) % u64)
        (match gradInner l pixel with
         | some j => (i, j)
         | none => rc)

/-- The complete position search of `Gradient2D` for pixel `p` in an
`l × l` image. -/
def findPos (l p : ℕ) : ℕ × ℕ := gradLoop l l 0 p (0, 0)

theorem gradInnerGo_eq_none (pixel : ℕ) :
    ∀ fuel j, j + fuel ≤ pixel → gradInnerGo pixel j fuel = none := by
  intro fuel
  induction fuel with
  | zero => intro j _; rfl
  | succ f ih =>
    intro j h
    have hj : j < pixel := by omega
    have hdiv : j / pixel = 0 := Nat.div_eq_of_lt hj
    simp [gradInnerGo, hdiv]
    exact ih (j + 1) (by omega)

theorem gradInnerGo_eq_some (pixel : ℕ) (hp : 1 ≤ pixel) :
    ∀ fuel j, j ≤ pixel → pixel < j + fuel → gradInnerGo pixel j fuel = some pixel := by
  intro fuel
  induction fuel with
  | zero => intro j h1 h2; omega
  | succ f ih =>
    intro j h1 h2
    rcases Nat.eq_or_lt_of_le h1 with heq | hlt
    · subst heq
      have : j / j = 1 := Nat.div_self hp
      simp [gradInnerGo, this]
    · have hdiv : j / pixel = 0 := Nat.div_eq_of_lt hlt
      simp [gradInnerGo, hdiv]
      exact ih (j + 1) (by omega) (by omega)

theorem gradInner_eq_none (l pixel : ℕ) (h : l ≤ pixel) : gradInner l pixel = none :=
  gradInnerGo_eq_none pixel l 0 (by omega)

theorem gradInner_eq_some (l pixel : ℕ) (h1 : 1 ≤ pixel) (h2 : pixel < l) :
    gradInner l pixel = some pixel :=
  gradInnerGo_eq_some pixel h1 l 0 (by omega) (by omega)

/-- Once `pixel` has wrapped around to a huge value, the rest of the outer
loop makes no further assignment: the final `(rows, cols)` is whatever was
recorded before. -/
theorem gradLoop_huge (l : ℕ) (hl : l ≤ 2 ^ 31) :
    ∀ fuel i pixel rc, 2 ^ 63 + fuel * l ≤ pixel → pixel < u64 →
      gradLoop l fuel i pixel rc = rc := by
  intro fuel
  induction fuel with
  | zero => intro i pixel rc _ _; rfl
  | succ f ih =>
    intro i pixel rc hbig hlt
    have hl63 : l < 2 ^ 63 := by
      calc l ≤ 2 ^ 31 := hl
      _ < 2 ^ 63 := by norm_num
    have hpix0 : pixel ≠ 0 := by omega
    have hnone : gradInner l pixel = gradInner l pixel := rfl
    have hge : l ≤ pixel := by omega
    rw [gradLoop, if_neg hpix0, gradInner_eq_none l pixel hge]
    have hmod : (pixel + (u64 - l)) % u64 = pixel - l := by
      have h1 : l ≤ u64 := by simp only [u64]; omega
      have h2 : pixel + (u64 - l) = u64 + (pixel - l) := by omega
      rw [h2, Nat.add_mod_left]
      exact Nat.mod_eq_of_lt (by omega)
    rw [hmod]
    have hfl : (f + 1) * l = f * l + l := by ring
    exact ih (i + 1) (pixel - l) rc (by omega) (by omega)

/-- Main loop invariant: starting the outer loop at row candidate `i` with
the mutated pixel value `a * l + r` (`r < l`) and at least `a + 1`
iterations of fuel left (but at most `l` in total, so the wrap-around phase
stays huge), the loop returns `(i + a, r)`. -/
theorem gradLoop_run (l : ℕ) (hl1 : 1 ≤ l) (hl : l ≤ 2 ^ 31) :
    ∀ a r i fuel rc, r < l → a < fuel → fuel ≤ l →
      gradLoop l fuel i (a * l + r) rc = (i + a, r) := by
  intro a
  induction a with
  | zero =>
    intro r i fuel rc hr hfuel hfl
    obtain ⟨f, rfl⟩ : ∃ f, fuel = f + 1 := ⟨fuel - 1, by omega⟩
    rw [show 0 * l + r = r by omega]
    by_cases hr0 : r = 0
    · subst hr0
      simp [gradLoop]
    · have h1r : 1 ≤ r := by omega
      rw [gradLoop, if_neg hr0, gradInner_eq_some l r h1r hr]
      have hmod : (r + (u64 - l)) % u64 = u64 - (l - r) := by
        have h1 : l ≤ u64 := by simp only [u64]; omega
        have h2 : r + (u64 - l) = u64 - (l - r) := by omega
        rw [h2]
        exact Nat.mod_eq_of_lt (by omega)
      rw [hmod]
      have hll : l * l ≤ 2 ^ 31 * 2 ^ 31 := Nat.mul_le_mul hl hl
      have hfl' : f * l ≤ l * l := Nat.mul_le_mul (by omega) (le_refl l)
      rw [gradLoop_huge l hl f (i + 1) (u64 - (l - r)) (i, r)
        (by simp only [u64] at *; omega) (by simp only [u64]; omega)]
      simp
  | succ a ih =>
    intro r i fuel rc hr hfuel hfl
    obtain ⟨f, rfl⟩ : ∃ f, fuel = f + 1 := ⟨fuel - 1, by omega⟩
    have hpix : (a + 1) * l + r ≠ 0 := by
      have : 1 * l ≤ (a + 1) * l := Nat.mul_le_mul (by omega) (le_refl l)
      omega
    have hge : l ≤ (a + 1) * l + r := by
      have : 1 * l ≤ (a + 1) * l := Nat.mul_le_mul (by omega) (le_refl l)
      omega
    rw [gradLoop, if_neg hpix, gradInner_eq_none l _ hge]
    have hlt : (a + 1) * l + r < u64 := by
      have h1 : (a + 1) * l ≤ l * l := Nat.mul_le_mul (by omega) (le_refl l)
      have h2 : l * l ≤ 2 ^ 31 * 2 ^ 31 := Nat.mul_le_mul hl hl
      simp only [u64]; omega
    have hmod : ((a + 1) * l + r + (u64 - l)) % u64 = a * l + r := by
      have h1 : l ≤ u64 := by simp only [u64]; omega
      have h2 : (a + 1) * l + r + (u64 - l) = u64 + (a * l + r) := by
        have : (a + 1) * l = a * l + l := by ring
        omega
      rw [h2, Nat.add_mod_left]
      refine Nat.mod_eq_of_lt ?_
      have h3 : a * l + r < (a + 1) * l + r := by
        have : a * l + 1 * l = (a + 1) * l := by ring
        have hl' : 0 < l := hl1
        omega
      omega
    rw [hmod, ih r (i + 1) f rc hr (by omega) (by omega)]
    have : i + 1 + a = i + (a + 1) := by omega
    rw [this]

/-- The pixel-position search of `Gradient2D` computes the row-major
coordinates `(p / l, p % l)` for every in-range pixel `p` of an `l × l`
image (with `l` far below the `unsigned long` wrap-around). -/
theorem findPos_eq (l p : ℕ) (hl1 : 1 ≤ l) (hl : l ≤ 2 ^ 31) (hp : p < l * l) :
    findPos l p = (p / l, p % l) := by
  have hdm : p = p / l * l + p % l := by
    rw [Nat.mul_comm]
    exact (Nat.div_add_mod p l).symm
  have hrl : p % l < l := Nat.mod_lt p (by omega)
  have hal : p / l < l := Nat.div_lt_of_lt_mul (by omega)
  rw [findPos]
  conv_lhs => rw [hdm]
  rw [gradLoop_run l hl1 hl (p / l) (p % l) 0 l (0, 0) hrl hal (le_refl l)]
  simp

/-! ## The discrete gradient operators -/

noncomputable section

/-- Model of `ctvm.cpp` `Gradient2D`: the per-pixel "right" and "down" gradient.
The function reshapes `U` column-major into an `l × l` matrix `X`
(`l = sqrt(n)` truncated to an integer), locates the pixel with the search
loop modelled by `findPos` (which computes the row-major coordinates
`rows = pixel / l`, `cols = pixel % l`, see `findPos_eq`), and takes
forward differences of `X` at `(rows, cols)`.  The `pixel >= n` branch of
the source aborts the whole process (`exit(EXIT_FAILURE)`) and is not
modelled; every use below has `pixel < n`. -/
def Gradient2D (U : Vec) (pixel : ℕ) : Vec :=
  let n := U.length
  let l := Nat.sqrt n
  let X := VectorToMatrix U l l
  let rc := findPos l pixel
  let r := rc.1
  let c := rc.2
  if c = l - 1 ∧ r = l - 1 then
    [mread X r c - mread X r c, mread X r c - mread X r c]
  else if c = l - 1 then
    [mread X r c - mread X r c, mread X r c - mread X (r + 1) c]
  else if r = l - 1 then
    [mread X r c - mread X r (c + 1), mread X r c - mread X r c]
  else
    [mread X r c - mread X r (c + 1), mread X r c - mread X (r + 1) c]

/-- Model of `ctvm.cpp` `Gradient2DMatrix`: the `n × 2` stack of all per-pixel
gradients, row `i` being `Gradient2D U i`. -/
def Gradient2DMatrix (U : Vec) : Mat :=
  (List.range U.length).map (fun i => Gradient2D U i)

/-- One iteration step of the `Unit_Gradient2DMatrix` loop
(`for (l = 1; l < L; ++l)`), acting on the current `2 × N` matrix `Di`.
The branch structure is the source's: a matched branch breaks the loop
(returning the matrix), the final `else` assigns and continues.  Breaking
is modelled by returning the matrix without consuming further fuel. -/
def unitGo (L N pixel : ℕ) : ℕ → ℕ → Mat → Mat
  | 0, _, Di => Di
  | fuel + 1, lv, Di =>
    if pixel = N - 1 then Di
    else if N - 1 - L < pixel ∧ pixel < N - 1 then
      msetT (msetT Di 0 pixel 1) 0 (pixel + 1) (-1)
    else if pixel = lv * L - 1 then
      msetT (msetT Di 1 pixel 1) 1 (pixel + L) (-1)
    else
      unitGo L N pixel fuel (lv + 1)
        (msetT (msetT (msetT (msetT Di 0 pixel 1) 0 (pixel + 1) (-1)) 1 pixel 1) 1 (pixel + L) (-1))

/-- Model of `ctvm.cpp` `Unit_Gradient2DMatrix`: the `2 × N` matrix of `±1` entries
that the solver multiplies (transposed) against per-pixel pairs; its rows
are labelled "right gradient" (offset `+1`) and "down gradient" (offset
`+L`) by the source.  The `N - 1 - L` of the source is `unsigned`
arithmetic; for `L ≥ 2` (every modelled use) it never wraps around, and
for `L ≤ 1` the loop body is unreachable, so ℕ truncated subtraction is
faithful.  The `pixel >= N` abort branch is again not modelled. -/
def Unit_Gradient2DMatrix (U : Vec) (pixel : ℕ) : Mat :=
  let N := U.length
  let L := Nat.sqrt N
  unitGo L N pixel (L - 1) 1 (BoostZeroMatrix 2 N)

end

/-! ## The solver kernels -/

noncomputable section

/-- Model of `ctvm.cpp` `Lagrangian`: the augmented Lagrangian
`Σᵢ ‖wᵢ‖ − Σᵢ ⟨νᵢ, Dᵢu − wᵢ⟩ + (β/2) Σᵢ ‖Dᵢu − wᵢ‖² − ⟨λ, Au − b⟩ + (μ/2)‖Au − b‖²`.
The per-pixel copy loop runs `j < 2`, so `Wi` and `NUi` are exactly row `i`
of `W` and `NU` (all accesses in bounds for `n × 2` matrices). -/
def Lagrangian (A : Mat) (U B : Vec) (W NU : Mat) (LAMBDA : Vec) (beta mu : ℝ) : ℝ :=
  let n := U.length
  let L0 := (List.range n).foldl
    (fun Lv i =>
      let DiU := Gradient2D U i
      let Wi := [mread W i 0, mread W i 1]
      let NUi := [mread NU i 0, mread NU i 1]
      let DIFFi := vsub DiU Wi
      let norm_wi := norm_2 Wi
      let square_norm_diffi := norm_2 DIFFi * norm_2 DIFFi
      Lv + norm_wi - inner_prod NUi DIFFi + (beta / 2) * square_norm_diffi) 0
  let DIFF := vsub (matvec A U) B
  let square_norm_diff := norm_2 DIFF * norm_2 DIFF
  L0 - inner_prod LAMBDA DIFF + (mu / 2) * square_norm_diff

/-- Model of `ctvm.cpp` `Shrike`: the per-pixel shrinkage
`w = max(‖Dᵢu − νᵢ/β‖ − 1/β, 0) · (Dᵢu − νᵢ/β)/‖Dᵢu − νᵢ/β‖`.
The source divides by `norm_diff` unconditionally; when
`‖Dᵢu − νᵢ/β‖ = 0` the C++ computes `0 * (0/0)`, which is IEEE NaN.  In
this real-valued model `x / 0 = 0`, so the zero-norm case yields `0`
here; the NaN behaviour of the binary is outside the model and is noted
where relevant. -/
def Shrike (DiUk NUi : Vec) (beta : ℝ) : Vec :=
  let DIFF := vsub DiUk (vdivs NUi beta)
  let norm_diff := norm_2 DIFF
  let x := norm_diff - 1 / beta
  let x' := if x < 0 then 0 else x
  smul x' (vdivs DIFF norm_diff)

/-- The w sub-problem pass of `Alternating_Minimisation`
(ctvm.cpp lines 302-313): for every pixel `i` and `j ∈ {0, 1}` it copies
`NU(i, j)` into a partially initialised 2-vector `NUi` (starting from the
zero vector, so at `j = 0` the second component of `NUi` is still `0`),
calls `Shrike`, and writes `W(j, i) := Wi(j)` — note the transposed index
order.  The write is bounds-checked: for an `n × 2` matrix `W` it is out
of bounds whenever `i ≥ 2` (column index) or `j ≥ n` (row index). -/
def WPass (Uk : Vec) (NU W : Mat) (beta : ℝ) : Except String Mat :=
  (List.range Uk.length).foldlM
    (fun (W : Mat) i => do
      let DiUk := Gradient2D Uk i
      let st ← (List.range 2).foldlM
        (fun (st : Vec × Mat) j => do
          let (NUi, W) := st
          let x ← mget NU i j
          let NUi ← vset NUi j x
          let Wi := Shrike DiUk NUi beta
          let W ← mset W j i (Wi.getD j 0)
          pure (NUi, W)) (BoostZeroVector 2, W)
      pure st.2) W

/-- Model of `ctvm.cpp` `Onestep_Direction`: the hand-rolled steepest-descent
direction for the u sub-problem,
`Σᵢ (β · Dᵢᵀ(−Dᵢu − wᵢ) − Dᵢᵀνᵢ) + μ·Aᵀ(Au − b) − Aᵀλ`,
where `Dᵢᵀ` is the transpose of `Unit_Gradient2DMatrix U i` and `Dᵢu`
comes from `Gradient2D`.  Note the source's `DiU_Wi = -DiU - Wi`. -/
def Onestep_Direction (A : Mat) (U B : Vec) (W NU : Mat) (LAMBDA : Vec) (beta mu : ℝ) : Vec :=
  let n := U.length
  let D0 := BoostZeroVector n
  let Dacc := (List.range n).foldl
    (fun D i =>
      let Di := Unit_Gradient2DMatrix U i
      let tDi := transpose Di
      let DiU := Gradient2D U i
      let Wi := [mread W i 0, mread W i 1]
      let NUi := [mread NU i 0, mread NU i 1]
      let DiU_Wi := vsub (vneg DiU) Wi
      vadd D (vsub (smul beta (matvec tDi DiU_Wi)) (matvec tDi NUi))) D0
  let DIFF := vsub (matvec A U) B
  let tA := transpose A
  vadd Dacc (vsub (smul mu (matvec tA DIFF)) (matvec tA LAMBDA))

/-- The transpose-gradient action `Dᵀ G` as the solver performs it: the
accumulation `Σᵢ trans(Unit_Gradient2DMatrix U i) · Gᵢ` over all pixels,
exactly the `prod(tDi, ·)` sum inside `Onestep_Direction`
(ctvm.cpp lines 226-238), applied to the rows of a pair field `G`. -/
def TransposeGradient2DApply (U : Vec) (G : Mat) : Vec :=
  (List.range U.length).foldl
    (fun D i =>
      vadd D (matvec (transpose (Unit_Gradient2DMatrix U i)) [mread G i 0, mread G i 1]))
    (BoostZeroVector U.length)

/-- Model of `ctvm.cpp` `U_Subfunction`: the quadratic model
`Q(u) = −Σᵢ ⟨νᵢ, Dᵢu − wᵢ⟩ + (β/2) Σᵢ ‖Dᵢu − wᵢ‖² − ⟨λ, Au − b⟩ + (μ/2)‖Au − b‖²`.
The source's inner copy loop runs `j < n` (`n = U.size()`) instead of
`j < 2`, reading `NU(i, j)` and `W(i, j)` and writing the 2-vectors
`NUi(j)`, `Wi(j)`; each of these accesses is out of bounds as soon as
`j ≥ 2`, so the accesses are modelled as checked and the evaluator
errors for every `n > 2`.  `NUi` and `Wi` are declared once, outside the
pixel loop, and thread across iterations. -/
def U_Subfunction (A : Mat) (U B : Vec) (W NU : Mat) (LAMBDA : Vec) (beta mu : ℝ) :
    Except String ℝ := do
  let n := U.length
  let st ← (List.range n).foldlM
    (fun (st : ℝ × Vec × Vec) i => do
      let (Q, NUi, Wi) := st
      let DiU := Gradient2D U i
      let (NUi, Wi) ← (List.range n).foldlM
        (fun (st2 : Vec × Vec) j => do
          let (NUi, Wi) := st2
          let x ← mget NU i j
          let NUi ← vset NUi j x
          let y ← mget W i j
          let Wi ← vset Wi j y
          pure (NUi, Wi)) (NUi, Wi)
      let DIFFk := vsub DiU Wi
      let square_norm_diffk := norm_2 DIFFk * norm_2 DIFFk
      pure (Q - inner_prod NUi DIFFk + (beta / 2) * square_norm_diffk, NUi, Wi))
    (0, BoostZeroVector 2, BoostZeroVector 2)
  let DIFF := vsub (matvec A U) B
  let square_norm_diff := norm_2 DIFF * norm_2 DIFF
  pure (st.1 - inner_prod LAMBDA DIFF + (mu / 2) * square_norm_diff)

/-- The non-monotone reference update of `Alternating_Minimisation`
(ctvm.cpp lines 334-338): `P ← η·P + 1`, `C ← (η·P·C + Q(u_{k+1})) / P_new`. -/
def cpStep (eta Pk C Qk1 : ℝ) : ℝ × ℝ :=
  (eta * Pk + 1, (eta * Pk * C + Qk1) / (eta * Pk + 1))

/-- The sequence of `(Pₖ, Cₖ)` pairs produced by iterating `cpStep` from
`P₀ = 1` and a given `C₀`, feeding it the value `q (k+1)` at step `k`
(`q j` stands for the run's `Q(u_j)`). -/
def cpSeq (eta C0 : ℝ) (q : ℕ → ℝ) : ℕ → ℝ × ℝ
  | 0 => (1, C0)
  | k + 1 => cpStep eta (cpSeq eta C0 q k).1 (cpSeq eta C0 q k).2 (q (k + 1))

/-- The backtracking line search of `Alternating_Minimisation`
(ctvm.cpp lines 321-330): a do-while that halves `alpha` (`rho = 0.5`)
until `Q(u − α d) ≤ C − δ·α·⟨d, d⟩`.  The source loop is unbounded; it is
modelled with a fuel parameter and errors on exhaustion. -/
def armijoLoop (A : Mat) (B : Vec) (W NU : Mat) (LAMBDA : Vec) (beta mu : ℝ)
    (Uk Dk : Vec) (C delta rho : ℝ) : ℕ → ℝ → Except String ℝ
  | 0, _ => .error "line search did not terminate"
  | fuel + 1, alpha => do
    let alpha := rho * alpha
    let Uk_alphaD := vsub Uk (smul alpha Dk)
    let Qk ← U_Subfunction A Uk_alphaD B W NU LAMBDA beta mu
    let armijo_tol := C - delta * alpha * inner_prod Dk Dk
    if Qk > armijo_tol then armijoLoop A B W NU LAMBDA beta mu Uk Dk C delta rho fuel alpha
    else pure alpha

/-- Loop state of `Alternating_Minimisation`: the mutated locals.  The
parameters `A`, `B`, `NU`, `LAMBDA`, `beta`, `mu` are never assigned by
the source loop and are threaded as fixed arguments. -/
structure AMState where
  W : Mat
  Uk_1 : Vec
  Uk : Vec
  Pk : ℝ
  C : ℝ

/-- One iteration of the `Alternating_Minimisation` do-while loop
(ctvm.cpp lines 299-341): the w-pass, then the u-step (Barzilai–Borwein
step length, backtracking, acceptance), then the non-monotone reference
update.  Returns the new state together with `innerstop = ‖u_{k+1} − u_k‖`. -/
def AM_iter (A : Mat) (B : Vec) (NU : Mat) (LAMBDA : Vec) (beta mu : ℝ)
    (afuel : ℕ) (s : AMState) : Except String (AMState × ℝ) := do
  let delta : ℝ := 0.5
  let rho : ℝ := 0.5
  let eta : ℝ := 0.5
  let W ← WPass s.Uk NU s.W beta
  let Sk := vsub s.Uk s.Uk_1
  let Dk_1 := Onestep_Direction A s.Uk_1 B W NU LAMBDA beta mu
  let Dk := Onestep_Direction A s.Uk B W NU LAMBDA beta mu
  let Yk := vsub Dk Dk_1
  let alpha := inner_prod Sk Yk / inner_prod Yk Yk
  let alpha ← armijoLoop A B W NU LAMBDA beta mu s.Uk Dk s.C delta rho afuel alpha
  let Uk1 := vsub s.Uk (smul alpha Dk)
  let innerstop := norm_2 (vsub Uk1 s.Uk)
  let Qk1 ← U_Subfunction A Uk1 B W NU LAMBDA beta mu
  let PC := cpStep eta s.Pk s.C Qk1
  pure ({ W := W, Uk_1 := s.Uk, Uk := Uk1, Pk := PC.1, C := PC.2 }, innerstop)

/-- The `Alternating_Minimisation` do-while loop: iterate `AM_iter` while
`innerstop > 0.01`.  The source loop is unbounded; fuel exhaustion is an
error of the model. -/
def AM_loop (A : Mat) (B : Vec) (NU : Mat) (LAMBDA : Vec) (beta mu : ℝ)
    (afuel : ℕ) : ℕ → AMState → Except String AMState
  | 0, _ => .error "alternating minimisation did not terminate"
  | fuel + 1, s => do
    let r ← AM_iter A B NU LAMBDA beta mu afuel s
    if r.2 > 0.01 then AM_loop A B NU LAMBDA beta mu afuel fuel r.1
    else pure r.1

/-- Model of `ctvm.cpp` `Alternating_Minimisation`: computes `C₀` from the full
Lagrangian once, runs the inner loop from `Uk_1 = 0`, `Uk = U`, `P₀ = 1`,
and packs the final `W` and `Uk` into the `n × 3` matrix `AL_MIN`
(columns 0-1 hold `W`, column 2 holds `U`).  `ifuel`/`afuel` bound the
two unbounded source loops. -/
def Alternating_Minimisation (A : Mat) (U B : Vec) (W NU : Mat) (LAMBDA : Vec)
    (beta mu : ℝ) (ifuel afuel : ℕ) : Except String Mat := do
  let C := Lagrangian A U B W NU LAMBDA beta mu
  let s ← AM_loop A B NU LAMBDA beta mu afuel ifuel
    { W := W, Uk_1 := BoostZeroVector U.length, Uk := U, Pk := 1, C := C }
  pure ((List.range U.length).map
    (fun pix => [mread s.W pix 0, mread s.W pix 1, s.Uk.getD pix 0]))

end

/-! ## The outer augmented-Lagrangian driver

`tval3_reconstruction` as committed does not compile as C++ (its body uses
an undeclared `Sinogram` and redeclares the parameter `A` before
overwriting it with `CreateRandomMatrix(m, n)`); the model below follows
the body's evident dataflow.  `CreateRandomMatrix` seeds a `mt19937` from
the wall clock (`ctvm_util.cpp` lines 85-99); the matrix it returns is
modelled as an explicit argument `A` of the driver. -/

noncomputable section

/-- The driver's iterate state: the variables mutated by the outer loop of
`tval3_reconstruction` (ctvm.cpp lines 392-408). -/
structure DriverState where
  W : Mat
  NU : Mat
  U : Vec
  LAMBDA : Vec
  beta : ℝ
  mu : ℝ

/-- Columns 0-1 of `AL_MIN`: the `w` returned by the inner minimiser. -/
def extractW (MIN : Mat) : Mat := MIN.map (fun row => [row.getD 0 0, row.getD 1 0])

/-- Column 2 of `AL_MIN`: the `u` returned by the inner minimiser. -/
def extractU (MIN : Mat) : Vec := MIN.map (fun row => row.getD 2 0)

/-- The driver state immediately after the call to
`Alternating_Minimisation` and the unpacking loop (ctvm.cpp lines
394-400): `W` and `U` are overwritten from `AL_MIN`; nothing else is
assigned at this point. -/
def driverAfterCall (A : Mat) (B : Vec) (ifuel afuel : ℕ) (s : DriverState) :
    Except String DriverState := do
  let MIN ← Alternating_Minimisation A s.U B s.W s.NU s.LAMBDA s.beta s.mu ifuel afuel
  pure { s with W := extractW MIN, U := extractU MIN }

/-- The remainder of one outer iteration (ctvm.cpp lines 401-405), as a
sequence of assignments in source order: `ν ← ν − β·(Du − w)`,
`λ ← λ − μ·(Au − b)`, then `β ← 1.05·β`, then `μ ← 1.05·β` with the
already-updated `β`. -/
def multGrowthUpdate (A : Mat) (B : Vec) (s : DriverState) : DriverState :=
  let coef : ℝ := 1.05
  let DiU := Gradient2DMatrix s.U
  let NU := matSub s.NU (matScale s.beta (matSub DiU s.W))
  let LAMBDA := vsub s.LAMBDA (smul s.mu (vsub (matvec A s.U) B))
  let beta := coef * s.beta
  let mu := coef * beta
  { s with NU := NU, LAMBDA := LAMBDA, beta := beta, mu := mu }

/-- One full outer iteration of `tval3_reconstruction`: inner call and
unpack, then multiplier updates and penalty growth; also returns
`outerstop = ‖U_new − U_old‖`. -/
def driverIter (A : Mat) (B : Vec) (ifuel afuel : ℕ) (s : DriverState) :
    Except String (DriverState × ℝ) := do
  let s1 ← driverAfterCall A B ifuel afuel s
  let s2 := multGrowthUpdate A B s1
  pure (s2, norm_2 (vsub s2.U s.U))

/-- The outer do-while loop of `tval3_reconstruction`, iterating while
`outerstop > 0.01`.  The source has no iteration cap; the model's fuel
exhaustion is an error. -/
def tval3_loop (A : Mat) (B : Vec) (ifuel afuel : ℕ) : ℕ → DriverState → Except String DriverState
  | 0, _ => .error "outer loop did not terminate"
  | fuel + 1, s => do
    let r ← driverIter A B ifuel afuel s
    if r.2 > 0.01 then tval3_loop A B ifuel afuel fuel r.1
    else pure r.1

/-- Model of `ctvm.cpp` `tval3_reconstruction`: zero-initialises the iterate state
with `μ = 3`, `β = √2`, rasterises the sinogram column-major into `b`,
runs the outer loop, and reshapes the final `u` into an `l × l` image.
`A` stands for the `CreateRandomMatrix(m, n)` draw (wall-clock seeded in
the source). -/
def tval3_reconstruction (Sinogram : Mat) (A : Mat) (ifuel afuel ofuel : ℕ) :
    Except String Mat := do
  let l := Sinogram.length
  let B := MatrixToVector Sinogram
  let n := l * l
  let s0 : DriverState :=
    { W := BoostZeroMatrix n 2, NU := BoostZeroMatrix n 2, U := BoostZeroVector n,
      LAMBDA := BoostZeroVector B.length, beta := Real.sqrt 2, mu := 3 }
  let s ← tval3_loop A B ifuel afuel ofuel s0
  pure (VectorToMatrix s.U l l)

end

/-! ## Definitions taken from the specification's words

The claims compare the code against the spec's closed forms; the
definitions in this section follow the specification text (§4.1, §4.4 and
the claim statements), not the source, and are named accordingly. -/

noncomputable section

/-- The per-pixel gradient exactly as claim C4 words it: with `i = r + c·L`
(`r = i mod L`, `c = i / L` zero-based row and column of the column-major
raster), `(Dᵢu)ₕ = u(r,c) − u(r,c+1)` if `c < L−1` and `0` in the last
column, `(Dᵢu)ᵥ = u(r,c) − u(r+1,c)` if `r < L−1` and `0` in the last
row, where `u(r,c) = u[r + c·L]`. -/
def claimGradient2D (u : Vec) (L i : ℕ) : Vec :=
  let r := i % L
  let c := i / L
  [if c < L - 1 then u.getD (r + c * L) 0 - u.getD (r + (c + 1) * L) 0 else 0,
   if r < L - 1 then u.getD (r + c * L) 0 - u.getD ((r + 1) + c * L) 0 else 0]

/-- The full gradient field `D u` of the specification (§4.1): row `i` is
`claimGradient2D u L i`. -/
def specGradientAll (L : ℕ) (u : Vec) : Mat :=
  (List.range (L * L)).map (fun i => claimGradient2D u L i)

/-- The transpose action `Dᵀ G` of the specification (§4.1): pixel `i`'s
horizontal component contributes `+Gₕ(i)` to pixel `i` and `−Gₕ(i)` to
pixel `i + L` when `c < L−1`; the vertical component contributes
`+Gᵥ(i)` to `i` and `−Gᵥ(i)` to `i + 1` when `r < L−1`. -/
def specDt (L : ℕ) (G : Mat) : Vec :=
  (List.range (L * L)).map (fun p =>
    ∑ i ∈ Finset.range (L * L),
      ((if i / L < L - 1 then
          mread G i 0 * ((if p = i then 1 else 0) - (if p = i + L then 1 else 0))
        else 0) +
       (if i % L < L - 1 then
          mread G i 1 * ((if p = i then 1 else 0) - (if p = i + 1 then 1 else 0))
        else 0)))

/-- The gradient of the quadratic model as the specification (§4.4) and
claim C1 state it:
`g(u) = β·Dᵀ(Du − w) − Dᵀν + μ·Aᵀ(Au − b) − Aᵀλ`. -/
def specDirection (L : ℕ) (A : Mat) (u b : Vec) (w nu : Mat) (lambda : Vec)
    (beta mu : ℝ) : Vec :=
  vadd (vsub (smul beta (specDt L (matSub (specGradientAll L u) w))) (specDt L nu))
    (vsub (smul mu (matvec (transpose A) (vsub (matvec A u) b)))
      (matvec (transpose A) lambda))

end

/-! ## Helper lemmas -/

theorem mread_VectorToMatrix (v : Vec) (rows cols a b : ℕ) (ha : a < rows) (hb : b < cols) :
    mread (VectorToMatrix v rows cols) a b = v.getD (b * rows + a) 0 := by
  simp [mread, VectorToMatrix, List.getD_eq_getElem?_getD, List.getElem?_map,
    List.getElem?_range, ha, hb]

theorem sqrt_four : Nat.sqrt 4 = 2 := by
  rw [show (4 : ℕ) = 2 * 2 by norm_num]
  exact Nat.sqrt_eq 2

theorem unitEval4_0 (u : Vec) (h : u.length = 4) :
    Unit_Gradient2DMatrix u 0 = [[1, -1, 0, 0], [1, 0, -1, 0]] := by
  simp only [Unit_Gradient2DMatrix, h]
  norm_num [sqrt_four]
  rfl

theorem unitEval4_1 (u : Vec) (h : u.length = 4) :
    Unit_Gradient2DMatrix u 1 = [[0, 0, 0, 0], [0, 1, 0, -1]] := by
  simp only [Unit_Gradient2DMatrix, h]
  norm_num [sqrt_four]
  rfl

theorem unitEval4_2 (u : Vec) (h : u.length = 4) :
    Unit_Gradient2DMatrix u 2 = [[0, 0, 1, -1], [0, 0, 0, 0]] := by
  simp only [Unit_Gradient2DMatrix, h]
  norm_num [sqrt_four]
  rfl

theorem unitEval4_3 (u : Vec) (h : u.length = 4) :
    Unit_Gradient2DMatrix u 3 = [[0, 0, 0, 0], [0, 0, 0, 0]] := by
  simp only [Unit_Gradient2DMatrix, h]
  norm_num [sqrt_four]
  rfl

/-! ## Claim C4 -/

/-- Claim C4, counterexample: at `L = 2`, `u = (1, 2, 3, 4)` and pixel
`i = 1` the code's `Gradient2D` returns `(0, u₂ − u₃) = (0, −1)`, while
the claimed column-major forward difference at pixel 1 (row `r = 1`,
column `c = 0`) is `(u₁ − u₃, 0) = (−2, 0)`: the code locates the pixel
row-major (`rows = i / L`, `cols = i mod L`) in the column-major reshape,
which is the transposed position. -/
theorem C4_counterexample_gradient_convention :
    Gradient2D [(1 : ℝ), 2, 3, 4] 1 = [0, -1] ∧
    claimGradient2D [(1 : ℝ), 2, 3, 4] 2 1 = [-2, 0] ∧
    Gradient2D [(1 : ℝ), 2, 3, 4] 1 ≠ claimGradient2D [(1 : ℝ), 2, 3, 4] 2 1 := by
  have h1 : Gradient2D [(1 : ℝ), 2, 3, 4] 1 = [0, -1] := by
    simp only [Gradient2D, List.length_cons, List.length_nil, sqrt_four]
    norm_num [show findPos 2 1 = (0, 1) by decide, mread, VectorToMatrix]
  have h2 : claimGradient2D [(1 : ℝ), 2, 3, 4] 2 1 = [-2, 0] := by
    norm_num [claimGradient2D]
  refine ⟨h1, h2, ?_⟩
  rw [h1, h2]
  intro h
  injection h with h0 htail
  norm_num at h0

/-- Claim C4, amended: `Gradient2D` does compute zero-padded forward
differences, but at the transposed raster position.  For `u` of size
`N = L·L` and pixel `i < N`, `Gradient2D u i` equals the claim's
column-major forward-difference gradient taken at pixel
`t = (i mod L)·L + i / L` (the transpose of `i`): the code finds
`rows = i / L`, `cols = i mod L` (a row-major read of the index) and
differences the column-major reshape there.  The bound `L ≤ 2^31` keeps
the source's `unsigned long` search loop away from wrap-around. -/
theorem C4_gradient_at_transposed_pixel (L : ℕ) (u : Vec) (i : ℕ) (hL : 1 ≤ L)
    (hL2 : L ≤ 2 ^ 31) (hu : u.length = L * L) (hi : i < L * L) :
    Gradient2D u i = claimGradient2D u L (i % L * L + i / L) := by
  have hL0 : 0 < L := hL
  have hsq : Nat.sqrt u.length = L := by rw [hu]; exact Nat.sqrt_eq L
  have hfp : findPos L i = (i / L, i % L) := findPos_eq L i hL hL2 hi
  have hrL : i / L < L := Nat.div_lt_of_lt_mul hi
  have hcL : i % L < L := Nat.mod_lt i hL0
  have htmod : (i % L * L + i / L) % L = i / L := by
    rw [Nat.mul_comm (i % L) L, Nat.mul_add_mod, Nat.mod_eq_of_lt hrL]
  have htdiv : (i % L * L + i / L) / L = i % L := by
    rw [Nat.mul_comm (i % L) L, Nat.mul_add_div hL0, Nat.div_eq_of_lt hrL, Nat.add_zero]
  simp only [Gradient2D, claimGradient2D, hsq, hfp, htmod, htdiv]
  set r := i / L with hrdef
  set c := i % L with hcdef
  by_cases hc : c = L - 1 <;> by_cases hr : r = L - 1
  · rw [if_pos ⟨hc, hr⟩, if_neg (by omega), if_neg (by omega), sub_self]
  · rw [if_neg (fun h => hr h.2), if_pos hc, if_neg (by omega), if_pos (by omega),
      sub_self, mread_VectorToMatrix u L L r c hrL hcL,
      mread_VectorToMatrix u L L (r + 1) c (by omega) hcL,
      Nat.add_comm (c * L) r, Nat.add_comm (c * L) (r + 1)]
  · rw [if_neg (fun h => hc h.1), if_neg hc, if_pos hr, if_pos (by omega), if_neg (by omega),
      sub_self, mread_VectorToMatrix u L L r c hrL hcL,
      mread_VectorToMatrix u L L r (c + 1) hrL (by omega),
      Nat.add_comm (c * L) r, Nat.add_comm ((c + 1) * L) r]
  · rw [if_neg (fun h => hc h.1), if_neg hc, if_neg hr, if_pos (by omega), if_pos (by omega),
      mread_VectorToMatrix u L L r c hrL hcL,
      mread_VectorToMatrix u L L r (c + 1) hrL (by omega),
      mread_VectorToMatrix u L L (r + 1) c (by omega) hcL,
      Nat.add_comm (c * L) r, Nat.add_comm ((c + 1) * L) r, Nat.add_comm (c * L) (r + 1)]

/-- Witness for `C4_gradient_at_transposed_pixel` at `L = 2`,
`u = (1, 2, 3, 4)`, `i = 1`. -/
theorem C4_gradient_at_transposed_pixel_witness :
    ([(1 : ℝ), 2, 3, 4]).length = 2 * 2 ∧ 1 < 2 * 2 ∧
    Gradient2D [(1 : ℝ), 2, 3, 4] 1 = claimGradient2D [(1 : ℝ), 2, 3, 4] 2 (1 % 2 * 2 + 1 / 2) :=
  ⟨by norm_num, by norm_num,
    C4_gradient_at_transposed_pixel 2 [(1 : ℝ), 2, 3, 4] 1 (by norm_num) (by norm_num)
      (by norm_num) (by norm_num)⟩

/-! ## Claim C1 -/

theorem gradEvalA_0 : Gradient2D [(1 : ℝ), 0, 0, 0] 0 = [1, 1] := by
  simp only [Gradient2D]
  norm_num [sqrt_four, show findPos 2 0 = (0, 0) by decide, mread, VectorToMatrix]

theorem gradEvalA_1 : Gradient2D [(1 : ℝ), 0, 0, 0] 1 = [0, 0] := by
  simp only [Gradient2D]
  norm_num [sqrt_four, show findPos 2 1 = (0, 1) by decide, mread, VectorToMatrix]

theorem gradEvalA_2 : Gradient2D [(1 : ℝ), 0, 0, 0] 2 = [0, 0] := by
  simp only [Gradient2D]
  norm_num [sqrt_four, show findPos 2 2 = (1, 0) by decide, mread, VectorToMatrix]

theorem gradEvalA_3 : Gradient2D [(1 : ℝ), 0, 0, 0] 3 = [0, 0] := by
  simp only [Gradient2D]
  norm_num [sqrt_four, show findPos 2 3 = (1, 1) by decide, mread, VectorToMatrix]

/-- Claim C1: the direction `Onestep_Direction` passes to the line search
is not the gradient `g(u) = β·Dᵀ(Du − w) − Dᵀν + μ·Aᵀ(Au − b) − Aᵀλ` of
the quadratic model.  At `L = 2`, `A = 0 (1×4)`, `b = 0`, `u = (1,0,0,0)`,
`w = ν = 0`, `λ = 0`, `β = 1`, `μ = 3`, the code accumulates
`β·Σᵢ Dᵢᵀ(−Dᵢu − wᵢ)` (note the `-DiU - Wi` in the source) and returns
`(−2, 1, 1, 0)`, while the spec's gradient is `(2, −1, −1, 0)`: the exact
negation, so the accepted trial iterate `u − α·d` moves along `+g`, not
`−g`. -/
theorem C1_direction_is_not_spec_gradient :
    Onestep_Direction [[(0 : ℝ), 0, 0, 0]] [1, 0, 0, 0] [0] (BoostZeroMatrix 4 2)
        (BoostZeroMatrix 4 2) [0] 1 3 = [-2, 1, 1, 0] ∧
    specDirection 2 [[(0 : ℝ), 0, 0, 0]] [1, 0, 0, 0] [0] (BoostZeroMatrix 4 2)
        (BoostZeroMatrix 4 2) [0] 1 3 = [2, -1, -1, 0] ∧
    Onestep_Direction [[(0 : ℝ), 0, 0, 0]] [1, 0, 0, 0] [0] (BoostZeroMatrix 4 2)
        (BoostZeroMatrix 4 2) [0] 1 3 ≠
      specDirection 2 [[(0 : ℝ), 0, 0, 0]] [1, 0, 0, 0] [0] (BoostZeroMatrix 4 2)
        (BoostZeroMatrix 4 2) [0] 1 3 := by
  have h1 : Onestep_Direction [[(0 : ℝ), 0, 0, 0]] [1, 0, 0, 0] [0] (BoostZeroMatrix 4 2)
      (BoostZeroMatrix 4 2) [0] 1 3 = [-2, 1, 1, 0] := by
    simp only [Onestep_Direction, List.length_cons, List.length_nil,
      show List.range 4 = [0, 1, 2, 3] from rfl, List.foldl_cons, List.foldl_nil,
      unitEval4_0 [(1 : ℝ), 0, 0, 0] (by norm_num), unitEval4_1 [(1 : ℝ), 0, 0, 0] (by norm_num),
      unitEval4_2 [(1 : ℝ), 0, 0, 0] (by norm_num), unitEval4_3 [(1 : ℝ), 0, 0, 0] (by norm_num),
      gradEvalA_0, gradEvalA_1, gradEvalA_2, gradEvalA_3]
    norm_num [BoostZeroVector, BoostZeroMatrix, mread, transpose, matvec, inner_prod,
      vadd, vsub, vneg, smul, List.zipWith]
  have h2 : specDirection 2 [[(0 : ℝ), 0, 0, 0]] [1, 0, 0, 0] [0] (BoostZeroMatrix 4 2)
      (BoostZeroMatrix 4 2) [0] 1 3 = [2, -1, -1, 0] := by
    norm_num [specDirection, specGradientAll, specDt, claimGradient2D, matSub,
      BoostZeroMatrix, mread, transpose, matvec, inner_prod, vadd, vsub, smul,
      List.zipWith, Finset.sum_range_succ,
      show List.range 4 = [0, 1, 2, 3] from rfl]
  refine ⟨h1, h2, ?_⟩
  rw [h1, h2]
  intro h
  injection h with h0 htail
  norm_num at h0

/-! ## Claim C3 -/

theorem gradEvalB_0 : Gradient2D [(0 : ℝ), 0, 1, 0] 0 = [-1, 0] := by
  simp only [Gradient2D]
  norm_num [sqrt_four, show findPos 2 0 = (0, 0) by decide, mread, VectorToMatrix]

theorem gradEvalB_1 : Gradient2D [(0 : ℝ), 0, 1, 0] 1 = [0, 1] := by
  simp only [Gradient2D]
  norm_num [sqrt_four, show findPos 2 1 = (0, 1) by decide, mread, VectorToMatrix]

theorem gradEvalB_2 : Gradient2D [(0 : ℝ), 0, 1, 0] 2 = [0, 0] := by
  simp only [Gradient2D]
  norm_num [sqrt_four, show findPos 2 2 = (1, 0) by decide, mread, VectorToMatrix]

theorem gradEvalB_3 : Gradient2D [(0 : ℝ), 0, 1, 0] 3 = [0, 0] := by
  simp only [Gradient2D]
  norm_num [sqrt_four, show findPos 2 3 = (1, 1) by decide, mread, VectorToMatrix]

/-- Claim C3: the gradient `D` (from `Gradient2DMatrix`) and the transpose
action `Dᵀ` the solver uses (the `trans(Unit_Gradient2DMatrix)` sum,
`TransposeGradient2DApply`) are not adjoint.  At `L = 2`,
`u = (0, 0, 1, 0)` and the pair field `G` with `G₁ = (0, 1)` and all
other rows zero, `⟨Du, G⟩_F = 1` while `⟨u, Dᵀ G⟩ = 0`, and
`|1 − 0| = 1` far exceeds `10⁻¹⁰ · ‖u‖ · ‖G‖_F = 10⁻¹⁰`. -/
theorem C3_adjoint_consistency_fails :
    frobInner (Gradient2DMatrix [(0 : ℝ), 0, 1, 0]) [[0, 0], [0, 1], [0, 0], [0, 0]] = 1 ∧
    inner_prod [(0 : ℝ), 0, 1, 0]
      (TransposeGradient2DApply [(0 : ℝ), 0, 1, 0] [[0, 0], [0, 1], [0, 0], [0, 0]]) = 0 ∧
    ¬(|frobInner (Gradient2DMatrix [(0 : ℝ), 0, 1, 0]) [[0, 0], [0, 1], [0, 0], [0, 0]] -
        inner_prod [(0 : ℝ), 0, 1, 0]
          (TransposeGradient2DApply [(0 : ℝ), 0, 1, 0] [[0, 0], [0, 1], [0, 0], [0, 0]])| ≤
      (1 / 10 ^ 10) * norm_2 [(0 : ℝ), 0, 1, 0] *
        frobNorm [[(0 : ℝ), 0], [0, 1], [0, 0], [0, 0]]) := by
  have hD : Gradient2DMatrix [(0 : ℝ), 0, 1, 0] = [[-1, 0], [0, 1], [0, 0], [0, 0]] := by
    simp only [Gradient2DMatrix, List.length_cons, List.length_nil,
      show List.range 4 = [0, 1, 2, 3] from rfl, List.map_cons, List.map_nil,
      gradEvalB_0, gradEvalB_1, gradEvalB_2, gradEvalB_3]
  have hfi : frobInner (Gradient2DMatrix [(0 : ℝ), 0, 1, 0]) [[0, 0], [0, 1], [0, 0], [0, 0]] = 1 := by
    rw [hD]
    norm_num [frobInner, inner_prod, List.zipWith]
  have hT : TransposeGradient2DApply [(0 : ℝ), 0, 1, 0] [[0, 0], [0, 1], [0, 0], [0, 0]] =
      [0, 1, 0, -1] := by
    simp only [TransposeGradient2DApply, List.length_cons, List.length_nil,
      show List.range 4 = [0, 1, 2, 3] from rfl, List.foldl_cons, List.foldl_nil,
      unitEval4_0 [(0 : ℝ), 0, 1, 0] (by norm_num), unitEval4_1 [(0 : ℝ), 0, 1, 0] (by norm_num),
      unitEval4_2 [(0 : ℝ), 0, 1, 0] (by norm_num), unitEval4_3 [(0 : ℝ), 0, 1, 0] (by norm_num)]
    norm_num [BoostZeroVector, mread, transpose, matvec, inner_prod, vadd, List.zipWith]
  have hip : inner_prod [(0 : ℝ), 0, 1, 0]
      (TransposeGradient2DApply [(0 : ℝ), 0, 1, 0] [[0, 0], [0, 1], [0, 0], [0, 0]]) = 0 := by
    rw [hT]
    norm_num [inner_prod, List.zipWith]
  have hnu : norm_2 [(0 : ℝ), 0, 1, 0] = 1 := by
    rw [norm_2, show sumSq [(0 : ℝ), 0, 1, 0] = 1 by norm_num [sumSq]]
    exact Real.sqrt_one
  have hng : frobNorm [[(0 : ℝ), 0], [0, 1], [0, 0], [0, 0]] = 1 := by
    rw [frobNorm,
      show ((([[(0 : ℝ), 0], [0, 1], [0, 0], [0, 0]] : Mat).map sumSq).foldr (· + ·) 0) = 1 by
        norm_num [sumSq]]
    exact Real.sqrt_one
  refine ⟨hfi, hip, ?_⟩
  rw [hfi, hip, hnu, hng]
  norm_num

/-! ## Claim C2 -/

/-- Claim C2: the w-update pass does not set `wᵢ` per pixel.  The source
writes `W(j, i) = Wi(j)` — transposed indices — so for an image with
`n = 4` pixels (`L = 2`, here with all-zero `u`, `ν`, `w` and `β = 2`)
the pass attempts to write column `i = 2` of the `n × 2` matrix `W`,
which is out of bounds, and the modelled pass errors instead of
producing the shrinkage field. -/
theorem C2_w_update_pass_out_of_bounds :
    WPass [(0 : ℝ), 0, 0, 0] (BoostZeroMatrix 4 2) (BoostZeroMatrix 4 2) 2 =
      .error "index out of bounds" := by
  norm_num [WPass, Shrike, BoostZeroMatrix, BoostZeroVector, mget, mset, vset,
    vsub, vdivs, smul, norm_2, sumSq, List.zipWith,
    show List.range 4 = [0, 1, 2, 3] from rfl,
    show List.range 2 = [0, 1] from rfl,
    List.foldlM, Except.bind, Bind.bind, Except.pure, Pure.pure,
    Real.sqrt_zero, div_zero]

/-! ## Claim C5 -/

/-- Claim C5: the quadratic-model evaluator does not read only the two
entries of row `i` of `ν` and `w`.  Its inner copy loop runs
`j = 0, …, n−1`; already at `n = 4` (`L = 2`, all inputs zero,
`β = μ = 1`) the access `NU(0, 2)` is out of bounds and the modelled
evaluator errors instead of returning `Q(u)`. -/
theorem C5_quadratic_model_out_of_bounds :
    U_Subfunction [[(0 : ℝ), 0, 0, 0]] [0, 0, 0, 0] [0] (BoostZeroMatrix 4 2)
      (BoostZeroMatrix 4 2) [0] 1 1 = .error "index out of bounds" := by
  norm_num [U_Subfunction, mget, vset,
    show BoostZeroMatrix 4 2 = [[(0 : ℝ), 0], [0, 0], [0, 0], [0, 0]] from rfl,
    show BoostZeroVector 2 = [(0 : ℝ), 0] from rfl,
    show List.range 4 = [0, 1, 2, 3] from rfl,
    List.foldlM, Except.bind, Bind.bind, Except.pure, Pure.pure]

/-! ## Claim C7 -/

theorem grad_one : Gradient2D [(0 : ℝ)] 0 = [0 - 0, 0 - 0] := by
  simp only [Gradient2D]
  norm_num [Nat.sqrt_one, show findPos 1 0 = (0, 0) by decide, mread, VectorToMatrix]

/-- At the one-pixel instance `A = [[0]]`, `u₀ = (0)`, `b = (0)`,
`w₀ = ((1, 0))`, `ν = 0`, `λ = 0`, `β = 2`, `μ = 3`, the inner solver's
initial reference value `C₀ = ℒ(u₀, w₀; …)` is `2`: the TV term
contributes `‖w₀‖ = 1` on top of the quadratic part `1`. -/
theorem lagrEval1 : Lagrangian [[(0 : ℝ)]] [0] [0] [[1, 0]] [[0, 0]] [0] 2 3 = 2 := by
  norm_num [Lagrangian, grad_one, mread, matvec, inner_prod, vsub, List.zipWith,
    norm_2, sumSq, show List.range 1 = [0] from rfl, List.foldl_cons, List.foldl_nil,
    Real.sqrt_one, Real.sqrt_zero]

/-- At the same instance the quadratic model at `u₀` is `Q(u₀) = 1`
(the evaluator succeeds because `n = 1` keeps its buggy copy loop in
bounds). -/
theorem qEval1 : U_Subfunction [[(0 : ℝ)]] [0] [0] [[1, 0]] [[0, 0]] [0] 2 3 = .ok 1 := by
  norm_num [U_Subfunction, grad_one, mget, vset, mread, matvec, inner_prod, vsub,
    List.zipWith, norm_2, sumSq, show List.range 1 = [0] from rfl,
    List.foldlM, Except.bind, Bind.bind, Except.pure, Pure.pure, BoostZeroVector,
    Real.sqrt_one, Real.sqrt_zero]

/-- Claim C7, counterexample: the reference values start at
`C₀ = ℒ(u₀, w₀; …)`, which is not between `min_{j≤0} Q(u_j)` and
`max_{j≤0} Q(u_j)`.  At the one-pixel instance of `lagrEval1`/`qEval1`,
`C₀ = 2` while `Q(u₀) = 1`, so `C₀ ≤ max_{j≤0} Q(u_j)` fails at `k = 0`;
and one update with `Q(u₁) = 1` gives `C₁ = 4/3 > 1`, so the bound also
fails for the first value produced by the update formula. -/
theorem C7_counterexample_reference_exceeds_Q :
    (cpSeq (1 / 2) (Lagrangian [[(0 : ℝ)]] [0] [0] [[1, 0]] [[0, 0]] [0] 2 3)
        (fun _ => 1) 0).2 = 2 ∧
    U_Subfunction [[(0 : ℝ)]] [0] [0] [[1, 0]] [[0, 0]] [0] 2 3 = .ok 1 ∧
    ¬((cpSeq (1 / 2) (Lagrangian [[(0 : ℝ)]] [0] [0] [[1, 0]] [[0, 0]] [0] 2 3)
        (fun _ => 1) 0).2 ≤ 1) ∧
    (cpSeq (1 / 2) (Lagrangian [[(0 : ℝ)]] [0] [0] [[1, 0]] [[0, 0]] [0] 2 3)
        (fun _ => 1) 1).2 = 4 / 3 ∧
    ¬((4 : ℝ) / 3 ≤ 1) := by
  refine ⟨by simp [cpSeq, lagrEval1], qEval1, ?_, ?_, by norm_num⟩
  · simp only [cpSeq, lagrEval1]
    norm_num
  · simp only [cpSeq, cpStep, lagrEval1]
    norm_num

/-- The running weight `Pₖ` of the non-monotone reference stays at least 1. -/
theorem cpSeq_P_ge_one (C0 : ℝ) (q : ℕ → ℝ) : ∀ k, 1 ≤ (cpSeq (1 / 2) C0 q k).1 := by
  intro k
  induction k with
  | zero => simp [cpSeq]
  | succ k ih =>
    simp only [cpSeq, cpStep]
    nlinarith

/-- Upper-bound half of the convex-combination property, with `C₀`
included in the bounding set. -/
theorem cpSeq_le (C0 : ℝ) (q : ℕ → ℝ) (M : ℝ) :
    ∀ k, C0 ≤ M → (∀ j, 1 ≤ j → j ≤ k → q j ≤ M) → (cpSeq (1 / 2) C0 q k).2 ≤ M := by
  intro k
  induction k with
  | zero => intro hC _; simpa [cpSeq] using hC
  | succ k ih =>
    intro hC hq
    have hP : 1 ≤ (cpSeq (1 / 2) C0 q k).1 := cpSeq_P_ge_one C0 q k
    have hCk : (cpSeq (1 / 2) C0 q k).2 ≤ M := ih hC (fun j h1 h2 => hq j h1 (by omega))
    have hqk : q (k + 1) ≤ M := hq (k + 1) (by omega) (by omega)
    simp only [cpSeq, cpStep]
    rw [div_le_iff₀ (by nlinarith)]
    nlinarith

/-- Lower-bound half of the convex-combination property, with `C₀`
included in the bounding set. -/
theorem cpSeq_ge (C0 : ℝ) (q : ℕ → ℝ) (m : ℝ) :
    ∀ k, m ≤ C0 → (∀ j, 1 ≤ j → j ≤ k → m ≤ q j) → m ≤ (cpSeq (1 / 2) C0 q k).2 := by
  intro k
  induction k with
  | zero => intro hC _; simpa [cpSeq] using hC
  | succ k ih =>
    intro hC hq
    have hP : 1 ≤ (cpSeq (1 / 2) C0 q k).1 := cpSeq_P_ge_one C0 q k
    have hCk : m ≤ (cpSeq (1 / 2) C0 q k).2 := ih hC (fun j h1 h2 => hq j h1 (by omega))
    have hqk : m ≤ q (k + 1) := hq (k + 1) (by omega) (by omega)
    simp only [cpSeq, cpStep]
    rw [le_div_iff₀ (by nlinarith)]
    nlinarith

/-- Claim C7, amended: with `η = 1/2`, starting from `P₀ = 1` and
`C₀ = ℒ(u₀, w₀; …)` and feeding the updates any stream `q` of quadratic
model values, every reference value `Cₖ` is a convex combination of `C₀`
and `q 1, …, q k`: it lies between `min(C₀, min_{1≤j≤k} q j)` and
`max(C₀, max_{1≤j≤k} q j)` (stated through an arbitrary pair of bounds
`m`, `M`).  The original claim's bounds, which omit `C₀ = ℒ ≥ Q(u₀)` from
the set, fail (see the counterexample). -/
theorem C7_reference_convex_combination (A : Mat) (U B : Vec) (W NU : Mat) (LAMBDA : Vec)
    (beta mu : ℝ) (q : ℕ → ℝ) (m M : ℝ) (k : ℕ)
    (hCM : Lagrangian A U B W NU LAMBDA beta mu ≤ M)
    (hqM : ∀ j, 1 ≤ j → j ≤ k → q j ≤ M)
    (hmC : m ≤ Lagrangian A U B W NU LAMBDA beta mu)
    (hmq : ∀ j, 1 ≤ j → j ≤ k → m ≤ q j) :
    m ≤ (cpSeq (1 / 2) (Lagrangian A U B W NU LAMBDA beta mu) q k).2 ∧
    (cpSeq (1 / 2) (Lagrangian A U B W NU LAMBDA beta mu) q k).2 ≤ M :=
  ⟨cpSeq_ge _ q m k hmC hmq, cpSeq_le _ q M k hCM hqM⟩

/-- Witness for `C7_reference_convex_combination` at the one-pixel
instance, `q ≡ 1`, `m = 1`, `M = 2`, `k = 1`. -/
theorem C7_reference_convex_combination_witness :
    1 ≤ (cpSeq (1 / 2) (Lagrangian [[(0 : ℝ)]] [0] [0] [[1, 0]] [[0, 0]] [0] 2 3)
        (fun _ => 1) 1).2 ∧
    (cpSeq (1 / 2) (Lagrangian [[(0 : ℝ)]] [0] [0] [[1, 0]] [[0, 0]] [0] 2 3)
        (fun _ => 1) 1).2 ≤ 2 :=
  C7_reference_convex_combination [[(0 : ℝ)]] [0] [0] [[1, 0]] [[0, 0]] [0] 2 3
    (fun _ => 1) 1 2 1 (by rw [lagrEval1]) (fun j _ _ => by norm_num)
    (by rw [lagrEval1]; norm_num) (fun j _ _ => by norm_num)

/-! ## Claims C8 and C10 -/

/-- The inner minimiser succeeds on the degenerate empty instance
(`n = 0`, as exercised by the repository's `test1.cpp` with a `0 × 0`
sinogram): the w-pass and the quadratic evaluator have no pixels to
visit, the line search accepts `α = 0` at once, and `innerstop = 0`
stops the loop after one iteration, returning an empty `AL_MIN`. -/
theorem AM_empty : Alternating_Minimisation [] [] [] [] [] [] 1 3 1 1 = .ok [] := by
  norm_num [Alternating_Minimisation, AM_loop, AM_iter, WPass, armijoLoop,
    Lagrangian, U_Subfunction, Onestep_Direction, cpStep,
    BoostZeroVector, matvec, transpose, inner_prod, vsub, vadd, smul, norm_2, sumSq,
    List.zipWith, List.foldlM, List.foldl,
    Except.bind, Bind.bind, Except.pure, Pure.pure,
    Real.sqrt_zero]

theorem driverAfterCall_empty :
    driverAfterCall [] [] 1 1 ⟨[], [], [], [], 1, 3⟩ = .ok ⟨[], [], [], [], 1, 3⟩ := by
  simp [driverAfterCall, AM_empty, extractW, extractU, Except.bind, Bind.bind,
    Except.pure, Pure.pure]

theorem driverIter_empty :
    driverIter [] [] 1 1 ⟨[], [], [], [], 1, 3⟩ =
      .ok (⟨[], [], [], [], 1.05, 1.05 * 1.05⟩, 0) := by
  norm_num [driverIter, driverAfterCall_empty, multGrowthUpdate, Gradient2DMatrix,
    matSub, matScale, vsub, smul, matvec, List.zipWith, norm_2, sumSq,
    Except.bind, Bind.bind, Except.pure, Pure.pure, Real.sqrt_zero]

/-- Claim C8: in every completed outer iteration the updates happen in
the claimed order with the claimed values.  Whatever `(u, w)` the
alternating minimisation returns (`extractU MIN`, `extractW MIN`), the
multiplier updates `ν ← ν − β(Du − w)` and `λ ← λ − μ(Au − b)` use the
pre-growth penalties `s.beta`, `s.mu`, and only afterwards does the
penalty growth produce `β' = 1.05·β` and `μ' = 1.05·β'` — `μ'` coupled
to the already-grown `β'` (so `μ' = 1.05²·β`). -/
theorem C8_outer_update_order (A : Mat) (B : Vec) (ifuel afuel : ℕ) (s : DriverState)
    (out : DriverState × ℝ) (h : driverIter A B ifuel afuel s = .ok out) :
    ∃ MIN, Alternating_Minimisation A s.U B s.W s.NU s.LAMBDA s.beta s.mu ifuel afuel = .ok MIN ∧
      out.1.W = extractW MIN ∧ out.1.U = extractU MIN ∧
      out.1.NU = matSub s.NU
        (matScale s.beta (matSub (Gradient2DMatrix (extractU MIN)) (extractW MIN))) ∧
      out.1.LAMBDA = vsub s.LAMBDA (smul s.mu (vsub (matvec A (extractU MIN)) B)) ∧
      out.1.beta = 1.05 * s.beta ∧
      out.1.mu = 1.05 * out.1.beta := by
  cases hAM : Alternating_Minimisation A s.U B s.W s.NU s.LAMBDA s.beta s.mu ifuel afuel with
  | error e =>
    rw [driverIter, driverAfterCall, hAM] at h
    simp [Except.bind, Bind.bind] at h
  | ok MIN =>
    rw [driverIter, driverAfterCall, hAM] at h
    simp only [Except.bind, Bind.bind, Except.pure, Pure.pure] at h
    have h2 := Except.ok.inj h
    subst h2
    refine ⟨MIN, rfl, ?_⟩
    simp [multGrowthUpdate]

/-- Witness for `C8_outer_update_order` on the empty instance. -/
theorem C8_outer_update_order_witness :
    ∃ MIN, Alternating_Minimisation [] [] [] [] [] [] 1 3 1 1 = .ok MIN ∧
      ([] : Mat) = extractW MIN ∧ ([] : Vec) = extractU MIN ∧
      ([] : Mat) = matSub []
        (matScale 1 (matSub (Gradient2DMatrix (extractU MIN)) (extractW MIN))) ∧
      ([] : Vec) = vsub [] (smul 3 (vsub (matvec [] (extractU MIN)) [])) ∧
      (1.05 : ℝ) = 1.05 * 1 ∧
      (1.05 * 1.05 : ℝ) = 1.05 * 1.05 :=
  C8_outer_update_order [] [] 1 1 ⟨[], [], [], [], 1, 3⟩
    (⟨[], [], [], [], 1.05, 1.05 * 1.05⟩, 0) driverIter_empty

/-- Claim C10: across the driver's call to the alternating minimiser the
multipliers are untouched.  The inner minimiser receives its arguments by
value and returns only the packed `AL_MIN` (`w` in columns 0-1, `u` in
column 2); the driver state right after the call and unpack has exactly
its pre-call `ν`, `λ` (and penalties), with only `W` and `U` replaced by
the returned values. -/
theorem C10_multipliers_unchanged_across_call (A : Mat) (B : Vec) (ifuel afuel : ℕ)
    (s s' : DriverState) (h : driverAfterCall A B ifuel afuel s = .ok s') :
    s'.NU = s.NU ∧ s'.LAMBDA = s.LAMBDA ∧ s'.beta = s.beta ∧ s'.mu = s.mu ∧
    ∃ MIN, Alternating_Minimisation A s.U B s.W s.NU s.LAMBDA s.beta s.mu ifuel afuel = .ok MIN ∧
      s'.W = extractW MIN ∧ s'.U = extractU MIN := by
  cases hAM : Alternating_Minimisation A s.U B s.W s.NU s.LAMBDA s.beta s.mu ifuel afuel with
  | error e =>
    rw [driverAfterCall, hAM] at h
    simp [Except.bind, Bind.bind] at h
  | ok MIN =>
    rw [driverAfterCall, hAM] at h
    simp only [Except.bind, Bind.bind, Except.pure, Pure.pure] at h
    have h2 := Except.ok.inj h
    subst h2
    exact ⟨rfl, rfl, rfl, rfl, MIN, rfl, rfl, rfl⟩

/-- Witness for `C10_multipliers_unchanged_across_call` on the empty
instance. -/
theorem C10_multipliers_unchanged_across_call_witness :
    ([] : Mat) = [] ∧ ([] : Vec) = [] ∧ (1 : ℝ) = 1 ∧ (3 : ℝ) = 3 ∧
    ∃ MIN, Alternating_Minimisation [] [] [] [] [] [] 1 3 1 1 = .ok MIN ∧
      ([] : Mat) = extractW MIN ∧ ([] : Vec) = extractU MIN :=
  C10_multipliers_unchanged_across_call [] [] 1 1 ⟨[], [], [], [], 1, 3⟩
    ⟨[], [], [], [], 1, 3⟩ driverAfterCall_empty

end Ctvm
